import Mathlib

/-!
# Saturating counter (`src/base/sat_counter.hh`)

A shallow embedding of the class `SatCounter` and a verification of its
construction, increment, decrement, read and reset operations.

The three private fields are `uint8_t`; they are modelled as natural numbers,
and every arithmetic step that the C++ code performs on a `uint8_t` is reduced
modulo `2^8` explicitly.
-/

/-! ## Machine integers -/

/-- Conversion of an `int` value to `uint8_t`: reduction modulo `2^8`. -/
def toUInt8 (z : Int) : Nat := (z % 256).toNat

/-- The value of `sizeof(uint8_t)`. -/
def sizeof_uint8_t : Nat := 1

/-- The `int` expression `(1 << bits) - 1` of the member initialiser of `maxVal`.
For `bits < 31` both the shift and the subtraction stay inside `int`, and the
value is `2^bits - 1`. For `bits ≥ 31` the C++ standard does not fix the value
(the subtraction overflows `int`, or the shift count reaches its width); the
embedding takes whatever the implementation produces there from `wide`. -/
def maxValExpr (wide : Nat → Int) (bits : Nat) : Int :=
  if bits < 31 then (2 : Int) ^ bits - 1 else wide bits

/-! ## Fatal errors -/

/-- The two fatal errors the constructor can raise. -/
inductive FatalError where
  | BitWidthExceeded
  | InitialValueOutOfRange
  deriving DecidableEq, Repr

/-- The message each fatal error is raised with in the source. -/
def FatalError.message : FatalError → String
  | .BitWidthExceeded => "Number of bits exceeds counter size"
  | .InitialValueOutOfRange => "Saturating counter\x27s Initial value exceeds max value."

/-- Modelled from the spec: the macro `fatal_if` of `base/logging.hh`, which is
not part of the sources at hand. When the condition holds the error is reported
at once and construction halts, so that no counter is observable; otherwise
execution continues. -/
def fatal_if (cond : Bool) (e : FatalError) : Except FatalError Unit :=
  if cond then Except.error e else Except.ok ()

/-! ## The counter -/

/-- The state of a `SatCounter`: its three `uint8_t` fields. -/
structure SatCounter where
  initialVal : Nat
  maxVal : Nat
  counter : Nat
  deriving DecidableEq, Repr

/-- A state is well typed when each field holds a `uint8_t` value. -/
def SatCounter.WellTyped (s : SatCounter) : Prop :=
  s.initialVal < 256 ∧ s.maxVal < 256 ∧ s.counter < 256

instance (s : SatCounter) : Decidable s.WellTyped := by
  unfold SatCounter.WellTyped
  exact inferInstance

/-- The constructor `SatCounter(unsigned bits, uint8_t initial_val)`. The member
initialisers run first, then the two `fatal_if` checks in the order of the
source. The argument `initial_val` is a `uint8_t`, that is, below `256`. -/
def SatCounter.construct (wide : Nat → Int) (bits : Nat) (initial_val : Nat) :
    Except FatalError SatCounter :=
  let self : SatCounter :=
    { initialVal := initial_val
      maxVal := toUInt8 (maxValExpr wide bits)
      counter := initial_val }
  match fatal_if (decide (bits > 8 * sizeof_uint8_t)) FatalError.BitWidthExceeded with
  | Except.error e => Except.error e
  | Except.ok _ =>
    match fatal_if (decide (initial_val > self.maxVal)) FatalError.InitialValueOutOfRange with
    | Except.error e => Except.error e
    | Except.ok _ => Except.ok self

/-- Pre-increment, `operator++()`: the counter after the call. -/
def SatCounter.operator_inc (s : SatCounter) : SatCounter :=
  if s.counter < s.maxVal then { s with counter := (s.counter + 1) % 256 } else s

/-- Post-increment, `operator++(int)`: the returned copy and the counter after
the call. -/
def SatCounter.operator_inc_int (s : SatCounter) : SatCounter × SatCounter :=
  let old_counter := s
  (old_counter, s.operator_inc)

/-- Pre-decrement, `operator--()`: the counter after the call. -/
def SatCounter.operator_dec (s : SatCounter) : SatCounter :=
  if s.counter > 0 then { s with counter := toUInt8 ((s.counter : Int) - 1) } else s

/-- Post-decrement, `operator--(int)`: the returned copy and the counter after
the call. -/
def SatCounter.operator_dec_int (s : SatCounter) : SatCounter × SatCounter :=
  let old_counter := s
  (old_counter, s.operator_dec)

/-- Read the counter, `operator uint8_t()`. -/
def SatCounter.operator_uint8_t (s : SatCounter) : Nat := s.counter

/-- Reset the counter to its initial value. -/
def SatCounter.reset (s : SatCounter) : SatCounter :=
  { s with counter := s.initialVal }

/-! ## Sequences of operations -/

/-- The state-changing operations a caller can apply to a counter. -/
inductive Op where
  | preInc
  | postInc
  | preDec
  | postDec
  | reset
  deriving DecidableEq, Repr

/-- The counter after one operation; the copies returned by the post forms are
dropped. -/
def Op.apply : Op → SatCounter → SatCounter
  | .preInc, s => s.operator_inc
  | .postInc, s => s.operator_inc_int.2
  | .preDec, s => s.operator_dec
  | .postDec, s => s.operator_dec_int.2
  | .reset, s => s.reset

/-- The counter after a sequence of operations, applied from left to right. -/
def run : List Op → SatCounter → SatCounter
  | [], s => s
  | op :: ops, s => run ops (op.apply s)

/-- The bounds that hold of every counter a caller can reach. -/
def SatCounter.Bounded (s : SatCounter) : Prop :=
  s.counter ≤ s.maxVal ∧ s.initialVal ≤ s.maxVal ∧ s.maxVal ≤ 255

/-- The call `operator uint8_t()` as a step: the value it returns and the counter
after the call. The member function is `const` and assigns to no field. -/
def SatCounter.operator_uint8_t_call (s : SatCounter) : Nat × SatCounter :=
  (s.counter, s)

/-- The values read after each operation of a sequence, in order. -/
def readings : List Op → SatCounter → List Nat
  | [], _ => []
  | op :: ops, s => (op.apply s).operator_uint8_t :: readings ops (op.apply s)

/-- An integer clamped to the range from `0` to `m`. -/
def clamp (z : Int) (m : Nat) : Int := max 0 (min z (m : Int))

/-- Increment as the specification words it: the counter plus one over the
unbounded integers, then clamped to the range from `0` to `maxVal`. -/
def SatCounter.clampedIncrement (s : SatCounter) : Int :=
  clamp ((s.counter : Int) + 1) s.maxVal

/-- Decrement as the specification words it: the counter minus one over the
unbounded integers, then clamped to the range from `0` to `maxVal`. -/
def SatCounter.clampedDecrement (s : SatCounter) : Int :=
  clamp ((s.counter : Int) - 1) s.maxVal

/-! ## Auxiliary facts -/

theorem toUInt8_two_pow_sub_one (bits : Nat) (h : bits ≤ 8) :
    toUInt8 ((2 : Int) ^ bits - 1) = 2 ^ bits - 1 := by
  interval_cases bits <;> decide

theorem maxValExpr_small (wide : Nat → Int) (bits : Nat) (h : bits ≤ 8) :
    toUInt8 (maxValExpr wide bits) = 2 ^ bits - 1 := by
  have h31 : bits < 31 := by omega
  simp only [maxValExpr, h31, if_true]
  exact toUInt8_two_pow_sub_one bits h

theorem two_pow_sub_one_le (bits : Nat) (h : bits ≤ 8) : 2 ^ bits - 1 ≤ 255 := by
  interval_cases bits <;> decide

theorem construct_small (wide : Nat → Int) (bits initial_val : Nat) (h : bits ≤ 8) :
    SatCounter.construct wide bits initial_val =
      if initial_val > 2 ^ bits - 1 then Except.error FatalError.InitialValueOutOfRange
      else Except.ok { initialVal := initial_val, maxVal := 2 ^ bits - 1, counter := initial_val } := by
  have h8 : ¬ bits > 8 * sizeof_uint8_t := by simp [sizeof_uint8_t]; omega
  simp only [SatCounter.construct, fatal_if, h8, decide_False, maxValExpr_small wide bits h]
  by_cases hi : initial_val > 2 ^ bits - 1 <;> simp [hi]

theorem construct_wide (wide : Nat → Int) (bits initial_val : Nat) (h : 8 < bits) :
    SatCounter.construct wide bits initial_val = Except.error FatalError.BitWidthExceeded := by
  have h8 : bits > 8 * sizeof_uint8_t := by simp [sizeof_uint8_t]; omega
  simp [SatCounter.construct, fatal_if, h8]

theorem operator_inc_below (s : SatCounter) (hm : s.maxVal < 256) (h : s.counter < s.maxVal) :
    s.operator_inc = { s with counter := s.counter + 1 } := by
  have hc : (s.counter + 1) % 256 = s.counter + 1 := Nat.mod_eq_of_lt (by omega)
  simp [SatCounter.operator_inc, h, hc]

theorem operator_inc_saturated (s : SatCounter) (h : ¬ s.counter < s.maxVal) :
    s.operator_inc = s := by
  simp [SatCounter.operator_inc, h]

theorem toUInt8_pred (n : Nat) (h0 : 0 < n) (h : n < 256) : toUInt8 ((n : Int) - 1) = n - 1 := by
  unfold toUInt8
  omega

theorem operator_dec_above (s : SatCounter) (hc : s.counter < 256) (h : 0 < s.counter) :
    s.operator_dec = { s with counter := s.counter - 1 } := by
  simp [SatCounter.operator_dec, h, toUInt8_pred s.counter h hc]

theorem operator_dec_saturated (s : SatCounter) (h : ¬ 0 < s.counter) :
    s.operator_dec = s := by
  simp [SatCounter.operator_dec, h]

theorem apply_initialVal (op : Op) (s : SatCounter) : (op.apply s).initialVal = s.initialVal := by
  cases op <;>
    simp only [Op.apply, SatCounter.operator_inc, SatCounter.operator_inc_int,
      SatCounter.operator_dec, SatCounter.operator_dec_int, SatCounter.reset] <;>
    split <;> rfl

theorem apply_maxVal (op : Op) (s : SatCounter) : (op.apply s).maxVal = s.maxVal := by
  cases op <;>
    simp only [Op.apply, SatCounter.operator_inc, SatCounter.operator_inc_int,
      SatCounter.operator_dec, SatCounter.operator_dec_int, SatCounter.reset] <;>
    split <;> rfl

theorem run_initialVal (ops : List Op) (s : SatCounter) : (run ops s).initialVal = s.initialVal := by
  induction ops generalizing s with
  | nil => rfl
  | cons op ops ih => rw [run, ih, apply_initialVal]

theorem run_maxVal (ops : List Op) (s : SatCounter) : (run ops s).maxVal = s.maxVal := by
  induction ops generalizing s with
  | nil => rfl
  | cons op ops ih => rw [run, ih, apply_maxVal]

theorem apply_bounded (op : Op) (s : SatCounter) (h : s.Bounded) : (op.apply s).Bounded := by
  obtain ⟨hc, hi, hm⟩ := h
  cases op
  case reset => exact ⟨hi, hi, hm⟩
  case preInc | postInc =>
    show s.operator_inc.Bounded
    by_cases hlt : s.counter < s.maxVal
    · rw [operator_inc_below s (by omega) hlt]
      exact ⟨by show s.counter + 1 ≤ s.maxVal; omega, hi, hm⟩
    · rw [operator_inc_saturated s hlt]
      exact ⟨hc, hi, hm⟩
  case preDec | postDec =>
    show s.operator_dec.Bounded
    by_cases hpos : 0 < s.counter
    · rw [operator_dec_above s (by omega) hpos]
      exact ⟨by show s.counter - 1 ≤ s.maxVal; omega, hi, hm⟩
    · rw [operator_dec_saturated s hpos]
      exact ⟨hc, hi, hm⟩

theorem run_bounded (ops : List Op) (s : SatCounter) (h : s.Bounded) : (run ops s).Bounded := by
  induction ops generalizing s with
  | nil => exact h
  | cons op ops ih => exact ih _ (apply_bounded op s h)

theorem construct_ok (wide : Nat → Int) (bits initial_val : Nat) (c : SatCounter)
    (h : SatCounter.construct wide bits initial_val = Except.ok c) :
    bits ≤ 8 ∧ initial_val ≤ 2 ^ bits - 1 ∧
      c = { initialVal := initial_val, maxVal := 2 ^ bits - 1, counter := initial_val } := by
  by_cases hb : bits ≤ 8
  · rw [construct_small wide bits initial_val hb] at h
    by_cases hi : initial_val > 2 ^ bits - 1
    · simp [hi] at h
    · simp only [hi, if_false, Except.ok.injEq] at h
      exact ⟨hb, by omega, h.symm⟩
  · rw [construct_wide wide bits initial_val (by omega)] at h
    cases h

theorem construct_bounded (wide : Nat → Int) (bits initial_val : Nat) (c : SatCounter)
    (h : SatCounter.construct wide bits initial_val = Except.ok c) : c.Bounded := by
  obtain ⟨hb, hi, rfl⟩ := construct_ok wide bits initial_val c h
  exact ⟨hi, hi, two_pow_sub_one_le bits hb⟩

/-! ## Construction -/

/-- C1: for a bit-width from 1 to 8 and an initial value of at most `2^bits - 1`,
construction succeeds, and reading the new counter returns the initial value. -/
theorem construct_then_read (wide : Nat → Int) (bits initialValue : Nat)
    (_h1 : 1 ≤ bits) (h8 : bits ≤ 8) (hi : initialValue ≤ 2 ^ bits - 1) :
    ∃ c, SatCounter.construct wide bits initialValue = Except.ok c ∧
      c.operator_uint8_t = initialValue := by
  have hn : ¬ initialValue > 2 ^ bits - 1 := by omega
  refine ⟨{ initialVal := initialValue, maxVal := 2 ^ bits - 1, counter := initialValue }, ?_, rfl⟩
  rw [construct_small wide bits initialValue h8]
  simp only [hn, if_false]

theorem construct_then_read_witness :
    (1 ≤ 3 ∧ 3 ≤ 8 ∧ 5 ≤ 2 ^ 3 - 1) ∧
      ∃ c, SatCounter.construct (fun _ => 0) 3 5 = Except.ok c ∧ c.operator_uint8_t = 5 :=
  ⟨by decide, construct_then_read (fun _ => 0) 3 5 (by decide) (by decide) (by decide)⟩

/-- C2: for a bit-width above 8 and any `uint8_t` initial value, construction fails
with `BitWidthExceeded`, whose message is "Number of bits exceeds counter size";
the error is not `InitialValueOutOfRange`, and no counter is produced. This holds
whatever value the implementation gives to `(1 << bits) - 1` for wide shifts. -/
theorem construct_bits_exceeded (wide : Nat → Int) (bits initialValue : Nat)
    (hb : 8 < bits) (_hi : initialValue < 256) :
    SatCounter.construct wide bits initialValue = Except.error FatalError.BitWidthExceeded ∧
      FatalError.BitWidthExceeded.message = "Number of bits exceeds counter size" ∧
      SatCounter.construct wide bits initialValue ≠
        Except.error FatalError.InitialValueOutOfRange ∧
      ∀ c, SatCounter.construct wide bits initialValue ≠ Except.ok c := by
  rw [construct_wide wide bits initialValue hb]
  refine ⟨rfl, rfl, ?_, ?_⟩
  · intro h
    cases h
  · intro c h
    cases h

theorem construct_bits_exceeded_witness :
    (8 < 9 ∧ 200 < 256) ∧
      SatCounter.construct (fun _ => 0) 9 200 = Except.error FatalError.BitWidthExceeded :=
  ⟨by decide, (construct_bits_exceeded (fun _ => 0) 9 200 (by decide) (by decide)).1⟩

/-- C3: for a bit-width of at most 8 and a `uint8_t` initial value above
`2^bits - 1`, construction fails with `InitialValueOutOfRange` and no counter is
produced; with `bits = 3` and initial value `5` construction does not fail. -/
theorem construct_initial_out_of_range (wide : Nat → Int) (bits initialValue : Nat)
    (hb : bits ≤ 8) (_hi : initialValue < 256) (h : 2 ^ bits - 1 < initialValue) :
    (SatCounter.construct wide bits initialValue =
        Except.error FatalError.InitialValueOutOfRange ∧
      ∀ c, SatCounter.construct wide bits initialValue ≠ Except.ok c) ∧
    SatCounter.construct wide 3 5 = Except.ok { initialVal := 5, maxVal := 7, counter := 5 } := by
  have e : SatCounter.construct wide bits initialValue =
      Except.error FatalError.InitialValueOutOfRange := by
    rw [construct_small wide bits initialValue hb]
    simp only [gt_iff_lt, h, if_true]
  refine ⟨⟨e, ?_⟩, ?_⟩
  · intro c hc
    rw [e] at hc
    cases hc
  · rw [construct_small wide 3 5 (by decide)]
    rfl

theorem construct_initial_out_of_range_witness :
    (3 ≤ 8 ∧ 9 < 256 ∧ 2 ^ 3 - 1 < 9) ∧
      SatCounter.construct (fun _ => 0) 3 9 = Except.error FatalError.InitialValueOutOfRange :=
  ⟨by decide,
    (construct_initial_out_of_range (fun _ => 0) 3 9 (by decide) (by decide) (by decide)).1.1⟩

/-- C4, as stated, fails: a bit-width of 0 with initial value 0 is accepted, so a
successful construction does not imply `1 ≤ bits`. -/
theorem construct_accepts_zero_bits :
    ¬ ∀ (wide : Nat → Int) (bits initialValue : Nat) (c : SatCounter),
        SatCounter.construct wide bits initialValue = Except.ok c →
          (1 ≤ bits ∧ bits ≤ 8) ∧ initialValue ≤ 2 ^ bits - 1 := by
  intro h
  have h0 := h (fun _ => 0) 0 0 { initialVal := 0, maxVal := 0, counter := 0 } rfl
  exact absurd h0.1.1 (by decide)

/-- C4, amended: a successful construction implies that the bit-width is at most 8
and that the initial value is at most `2^bits - 1`; a bit-width of 0 is accepted,
together with the initial value 0. -/
theorem construct_enforces_constraints (wide : Nat → Int) (bits initialValue : Nat)
    (c : SatCounter) (h : SatCounter.construct wide bits initialValue = Except.ok c) :
    (bits ≤ 8 ∧ initialValue ≤ 2 ^ bits - 1) ∧
      SatCounter.construct wide 0 0 = Except.ok { initialVal := 0, maxVal := 0, counter := 0 } := by
  obtain ⟨hb, hi, _⟩ := construct_ok wide bits initialValue c h
  refine ⟨⟨hb, hi⟩, ?_⟩
  rw [construct_small wide 0 0 (by decide)]
  rfl

theorem construct_enforces_constraints_witness :
    SatCounter.construct (fun _ => 0) 2 3 = Except.ok { initialVal := 3, maxVal := 3, counter := 3 } ∧
      (2 ≤ 8 ∧ 3 ≤ 2 ^ 2 - 1) :=
  ⟨rfl, (construct_enforces_constraints (fun _ => 0) 2 3 _ rfl).1⟩

/-! ## Increment and decrement -/

/-- C5: on every counter state with `uint8_t` fields, pre-increment sets the counter to
`counter + 1` when `counter < maxVal` and otherwise leaves the state unchanged; in
particular it is a no-op on a state whose counter equals `maxVal`. -/
theorem operator_inc_spec (s : SatCounter) (hs : s.WellTyped) :
    (s.counter < s.maxVal → s.operator_inc = { s with counter := s.counter + 1 }) ∧
      (¬ s.counter < s.maxVal → s.operator_inc = s) ∧
      (s.counter = s.maxVal → s.operator_inc = s) := by
  refine ⟨fun h => operator_inc_below s hs.2.1 h, fun h => operator_inc_saturated s h, ?_⟩
  intro h
  exact operator_inc_saturated s (by omega)

theorem operator_inc_spec_witness :
    SatCounter.WellTyped { initialVal := 1, maxVal := 3, counter := 2 } ∧
      SatCounter.operator_inc { initialVal := 1, maxVal := 3, counter := 2 } =
        { initialVal := 1, maxVal := 3, counter := 3 } ∧
      SatCounter.operator_inc { initialVal := 1, maxVal := 3, counter := 3 } =
        { initialVal := 1, maxVal := 3, counter := 3 } :=
  ⟨by decide,
    (operator_inc_spec { initialVal := 1, maxVal := 3, counter := 2 } (by decide)).1 (by decide),
    (operator_inc_spec { initialVal := 1, maxVal := 3, counter := 3 } (by decide)).2.2 rfl⟩

/-- C6: on every counter state with `uint8_t` fields, pre-decrement sets the counter to
`counter - 1` when `counter > 0` and otherwise leaves the state unchanged; in
particular it is a no-op on a state whose counter is 0. -/
theorem operator_dec_spec (s : SatCounter) (hs : s.WellTyped) :
    (s.counter > 0 → s.operator_dec = { s with counter := s.counter - 1 }) ∧
      (¬ s.counter > 0 → s.operator_dec = s) ∧
      (s.counter = 0 → s.operator_dec = s) := by
  refine ⟨fun h => operator_dec_above s hs.2.2 h, fun h => operator_dec_saturated s h, ?_⟩
  intro h
  exact operator_dec_saturated s (by omega)

theorem operator_dec_spec_witness :
    SatCounter.WellTyped { initialVal := 1, maxVal := 3, counter := 1 } ∧
      SatCounter.operator_dec { initialVal := 1, maxVal := 3, counter := 1 } =
        { initialVal := 1, maxVal := 3, counter := 0 } ∧
      SatCounter.operator_dec { initialVal := 1, maxVal := 3, counter := 0 } =
        { initialVal := 1, maxVal := 3, counter := 0 } :=
  ⟨by decide,
    (operator_dec_spec { initialVal := 1, maxVal := 3, counter := 1 } (by decide)).1 (by decide),
    (operator_dec_spec { initialVal := 1, maxVal := 3, counter := 0 } (by decide)).2.2 rfl⟩

/-! ## Reset and the state invariants -/

/-- C7: reset law. After a successful construction and any finite sequence of
increments and decrements, in pre or post form (resets in between are allowed as
well), a final `reset` makes a read return the initial value given at construction. -/
theorem reset_law (wide : Nat → Int) (bits initialValue : Nat) (c : SatCounter)
    (ops : List Op) (h : SatCounter.construct wide bits initialValue = Except.ok c) :
    (run ops c).reset.operator_uint8_t = initialValue := by
  obtain ⟨_, _, rfl⟩ := construct_ok wide bits initialValue c h
  show (run ops _).initialVal = initialValue
  rw [run_initialVal]

theorem reset_law_witness :
    SatCounter.construct (fun _ => 0) 2 1 = Except.ok { initialVal := 1, maxVal := 3, counter := 1 } ∧
      (run [Op.preInc, Op.postInc, Op.preInc, Op.postDec, Op.preDec]
        { initialVal := 1, maxVal := 3, counter := 1 }).reset.operator_uint8_t = 1 :=
  ⟨rfl, reset_law (fun _ => 0) 2 1 _ [Op.preInc, Op.postInc, Op.preInc, Op.postDec, Op.preDec] rfl⟩

/-- C8: state invariant. In every state reached from a successful construction by a
finite sequence of increments, decrements and resets, `0 ≤ counter ≤ maxVal ≤ 255`
holds, and `maxVal` is still `2^bits - 1`. -/
theorem counter_invariant (wide : Nat → Int) (bits initialValue : Nat) (c : SatCounter)
    (ops : List Op) (h : SatCounter.construct wide bits initialValue = Except.ok c) :
    0 ≤ (run ops c).counter ∧ (run ops c).counter ≤ (run ops c).maxVal ∧
      (run ops c).maxVal ≤ 255 ∧ (run ops c).maxVal = 2 ^ bits - 1 := by
  obtain ⟨hc, _, hm⟩ := run_bounded ops c (construct_bounded wide bits initialValue c h)
  obtain ⟨_, _, rfl⟩ := construct_ok wide bits initialValue c h
  exact ⟨Nat.zero_le _, hc, hm, run_maxVal ops _⟩

theorem counter_invariant_witness :
    SatCounter.construct (fun _ => 0) 8 254 =
        Except.ok { initialVal := 254, maxVal := 255, counter := 254 } ∧
      (run [Op.preInc, Op.preInc, Op.postInc]
          { initialVal := 254, maxVal := 255, counter := 254 }).counter ≤
        (run [Op.preInc, Op.preInc, Op.postInc]
          { initialVal := 254, maxVal := 255, counter := 254 }).maxVal :=
  ⟨rfl, (counter_invariant (fun _ => 0) 8 254 _ [Op.preInc, Op.preInc, Op.postInc] rfl).2.1⟩

/-- C9: state invariant. `initialVal ≤ maxVal` holds right after every successful
construction, each increment, decrement and reset preserves it, and so it holds in
every state reached from a successful construction. -/
theorem initialVal_invariant (wide : Nat → Int) (bits initialValue : Nat) (c : SatCounter)
    (h : SatCounter.construct wide bits initialValue = Except.ok c) :
    c.initialVal ≤ c.maxVal ∧
      (∀ (op : Op) (s : SatCounter), s.initialVal ≤ s.maxVal →
        (op.apply s).initialVal ≤ (op.apply s).maxVal) ∧
      ∀ ops : List Op, (run ops c).initialVal ≤ (run ops c).maxVal := by
  have hb := construct_bounded wide bits initialValue c h
  refine ⟨hb.2.1, ?_, fun ops => (run_bounded ops c hb).2.1⟩
  intro op s hs
  rw [apply_initialVal, apply_maxVal]
  exact hs

theorem initialVal_invariant_witness :
    SatCounter.construct (fun _ => 0) 3 6 = Except.ok { initialVal := 6, maxVal := 7, counter := 6 } ∧
      (run [Op.preDec, Op.reset, Op.postInc] { initialVal := 6, maxVal := 7, counter := 6 }).initialVal ≤
        (run [Op.preDec, Op.reset, Op.postInc] { initialVal := 6, maxVal := 7, counter := 6 }).maxVal :=
  ⟨rfl, (initialVal_invariant (fun _ => 0) 3 6 _ rfl).2.2 [Op.preDec, Op.reset, Op.postInc]⟩

/-- C10: every successfully constructed counter stores `maxVal = 2^bits - 1` exactly,
for the bit-widths 0 to 8 that construction accepts: the conversion to `uint8_t`
truncates nothing. A bit-width of 8 gives 255 and a bit-width of 1 gives 1. -/
theorem maxVal_exact (wide : Nat → Int) (bits initialValue : Nat) (c : SatCounter)
    (_hb : bits ≤ 8) (h : SatCounter.construct wide bits initialValue = Except.ok c) :
    (c.maxVal = 2 ^ bits - 1 ∧ (c.maxVal : Int) = (2 : Int) ^ bits - 1) ∧
      (bits = 8 → c.maxVal = 255) ∧ (bits = 1 → c.maxVal = 1) := by
  obtain ⟨hb, _, rfl⟩ := construct_ok wide bits initialValue c h
  refine ⟨⟨rfl, ?_⟩, ?_, ?_⟩
  · show (((2 ^ bits - 1 : Nat)) : Int) = (2 : Int) ^ bits - 1
    have hp : 1 ≤ 2 ^ bits := Nat.one_le_two_pow
    push_cast [Nat.cast_sub hp]
    rfl
  · rintro rfl
    rfl
  · rintro rfl
    rfl

theorem maxVal_exact_witness :
    (8 ≤ 8 ∧ SatCounter.construct (fun _ => 0) 8 0 =
        Except.ok { initialVal := 0, maxVal := 255, counter := 0 }) ∧
      SatCounter.maxVal { initialVal := 0, maxVal := 255, counter := 0 } = 2 ^ 8 - 1 :=
  ⟨⟨by decide, rfl⟩, (maxVal_exact (fun _ => 0) 8 0 _ (by decide) rfl).1.1⟩

/-! ## Further auxiliary facts -/

theorem operator_inc_counter (s : SatCounter) (hm : s.maxVal < 256) :
    s.operator_inc.counter = if s.counter < s.maxVal then s.counter + 1 else s.counter := by
  by_cases h : s.counter < s.maxVal
  · rw [operator_inc_below s hm h]
    simp [h]
  · rw [operator_inc_saturated s h]
    simp [h]

theorem operator_dec_counter (s : SatCounter) (hc : s.counter < 256) :
    s.operator_dec.counter = s.counter - 1 := by
  by_cases h : 0 < s.counter
  · rw [operator_dec_above s hc h]
  · rw [operator_dec_saturated s h]
    omega

theorem operator_inc_maxVal (s : SatCounter) : s.operator_inc.maxVal = s.maxVal :=
  apply_maxVal Op.preInc s

theorem operator_dec_maxVal (s : SatCounter) : s.operator_dec.maxVal = s.maxVal :=
  apply_maxVal Op.preDec s

theorem run_replicate_preInc (n : Nat) (s : SatCounter) (hm : s.maxVal < 256)
    (hc : s.counter ≤ s.maxVal) :
    (run (List.replicate n Op.preInc) s).counter = min (s.counter + n) s.maxVal := by
  induction n generalizing s with
  | zero => simp [run, hc]
  | succ n ih =>
    have hm1 : s.operator_inc.maxVal < 256 := by rw [operator_inc_maxVal]; exact hm
    have hcnt := operator_inc_counter s hm
    have hc1 : s.operator_inc.counter ≤ s.operator_inc.maxVal := by
      rw [operator_inc_maxVal, hcnt]
      split <;> omega
    have step := ih s.operator_inc hm1 hc1
    rw [operator_inc_maxVal, hcnt] at step
    rw [List.replicate_succ, run]
    show (run (List.replicate n Op.preInc) s.operator_inc).counter = _
    rw [step]
    split <;> omega

theorem run_replicate_preDec (n : Nat) (s : SatCounter) (hc : s.counter < 256) :
    (run (List.replicate n Op.preDec) s).counter = s.counter - n := by
  induction n generalizing s with
  | zero => simp [run]
  | succ n ih =>
    have hcnt := operator_dec_counter s hc
    have step := ih s.operator_dec (by rw [hcnt]; omega)
    rw [hcnt] at step
    rw [List.replicate_succ, run]
    show (run (List.replicate n Op.preDec) s.operator_dec).counter = _
    rw [step]
    omega

/-! ## Saturation without wrap-around -/

/-- C11: the counter never wraps. On every counter state with `uint8_t` fields and
`counter ≤ maxVal` (the extreme cases `maxVal = 255` and `counter = 0` included), the
value that increment and decrement compute with arithmetic modulo `2^8` equals the
value computed over the unbounded integers and then clamped to the range from `0`
to `maxVal`; where the source takes the branch, the reduction modulo `2^8` changes
nothing. -/
theorem never_wraps (s : SatCounter) (hs : s.WellTyped) (hc : s.counter ≤ s.maxVal) :
    ((s.operator_inc.counter : Int) = s.clampedIncrement ∧
      (s.operator_dec.counter : Int) = s.clampedDecrement) ∧
    (s.counter < s.maxVal → (s.counter + 1) % 256 = s.counter + 1) ∧
    (s.counter > 0 → (toUInt8 ((s.counter : Int) - 1) : Int) = (s.counter : Int) - 1) := by
  obtain ⟨_, hm, hc256⟩ := hs
  refine ⟨⟨?_, ?_⟩, ?_, ?_⟩
  · rw [operator_inc_counter s hm]
    unfold SatCounter.clampedIncrement clamp
    split <;> omega
  · rw [operator_dec_counter s hc256]
    unfold SatCounter.clampedDecrement clamp
    omega
  · intro h
    exact Nat.mod_eq_of_lt (by omega)
  · intro h
    rw [toUInt8_pred s.counter h hc256]
    omega

theorem never_wraps_witness :
    (SatCounter.WellTyped { initialVal := 0, maxVal := 255, counter := 255 } ∧ 255 ≤ 255) ∧
      ((SatCounter.operator_inc { initialVal := 0, maxVal := 255, counter := 255 }).counter : Int) =
        SatCounter.clampedIncrement { initialVal := 0, maxVal := 255, counter := 255 } :=
  ⟨by decide,
    (never_wraps { initialVal := 0, maxVal := 255, counter := 255 } (by decide) (by decide)).1.1⟩

/-! ## Post-increment and post-decrement -/

/-- C12: on every counter state `s`, post-increment returns a counter equal to `s`
in all three fields, so that reading the returned copy gives the value before the
increment, and leaves the counter in the state pre-increment produces from `s`;
post-decrement likewise returns `s` and leaves the state pre-decrement produces. -/
theorem post_forms (s : SatCounter) :
    (s.operator_inc_int.1 = s ∧ s.operator_inc_int.1.operator_uint8_t = s.counter ∧
      s.operator_inc_int.2 = s.operator_inc) ∧
    (s.operator_dec_int.1 = s ∧ s.operator_dec_int.1.operator_uint8_t = s.counter ∧
      s.operator_dec_int.2 = s.operator_dec) :=
  ⟨⟨rfl, rfl, rfl⟩, ⟨rfl, rfl, rfl⟩⟩

/-! ## A trace -/

/-- C13: construction with `bits = 2` and initial value `1` succeeds with `maxVal = 3`,
and the operations increment, increment, increment, increment, decrement, each
followed by a read, yield the values 2, 3, 3, 3, 2, in the pre and in the post
forms alike. -/
theorem end_to_end_trace (wide : Nat → Int) :
    SatCounter.construct wide 2 1 = Except.ok { initialVal := 1, maxVal := 3, counter := 1 } ∧
    readings [Op.preInc, Op.preInc, Op.preInc, Op.preInc, Op.preDec]
      { initialVal := 1, maxVal := 3, counter := 1 } = [2, 3, 3, 3, 2] ∧
    readings [Op.postInc, Op.postInc, Op.postInc, Op.postInc, Op.postDec]
      { initialVal := 1, maxVal := 3, counter := 1 } = [2, 3, 3, 3, 2] := by
  refine ⟨?_, by decide, by decide⟩
  rw [construct_small wide 2 1 (by decide)]
  rfl

/-! ## Repeated steps -/

/-- C14: closed form of repeated steps. On a counter state with `uint8_t` fields and
`counter = v ≤ maxVal = m`, `n` increments yield the counter `min (v + n) m` and `n`
decrements yield `v - min v n`; hence `m - v` increments reach saturation at `m` and
`v` decrements reach `0`. -/
theorem repeated_steps (s : SatCounter) (hs : s.WellTyped) (hc : s.counter ≤ s.maxVal)
    (n : Nat) :
    (run (List.replicate n Op.preInc) s).counter = min (s.counter + n) s.maxVal ∧
    (run (List.replicate n Op.preDec) s).counter = s.counter - min s.counter n ∧
    (run (List.replicate (s.maxVal - s.counter) Op.preInc) s).counter = s.maxVal ∧
    (run (List.replicate s.counter Op.preDec) s).counter = 0 := by
  obtain ⟨_, hm, hc256⟩ := hs
  refine ⟨run_replicate_preInc n s hm hc, ?_, ?_, ?_⟩
  · rw [run_replicate_preDec n s hc256]
    omega
  · rw [run_replicate_preInc _ s hm hc]
    omega
  · rw [run_replicate_preDec _ s hc256]
    omega

theorem repeated_steps_witness :
    (SatCounter.WellTyped { initialVal := 1, maxVal := 3, counter := 1 } ∧ 1 ≤ 3) ∧
      (run (List.replicate 5 Op.preInc) { initialVal := 1, maxVal := 3, counter := 1 }).counter =
        min (1 + 5) 3 :=
  ⟨by decide,
    (repeated_steps { initialVal := 1, maxVal := 3, counter := 1 } (by decide) (by decide) 5).1⟩

/-! ## Increment and decrement as inverses -/

/-- C15: on a counter state with `uint8_t` fields, a decrement undoes an increment
when `counter < maxVal`, and an increment undoes a decrement when
`0 < counter ≤ maxVal`; at `counter = maxVal > 0` increment then decrement changes
the state, and at `counter = 0 < maxVal` decrement then increment changes it. -/
theorem inc_dec_inverse (s : SatCounter) (hs : s.WellTyped) :
    (s.counter < s.maxVal → s.operator_inc.operator_dec = s) ∧
    (0 < s.counter ∧ s.counter ≤ s.maxVal → s.operator_dec.operator_inc = s) ∧
    (s.counter = s.maxVal ∧ 0 < s.maxVal → s.operator_inc.operator_dec ≠ s) ∧
    (s.counter = 0 ∧ 0 < s.maxVal → s.operator_dec.operator_inc ≠ s) := by
  obtain ⟨_, hm, hc256⟩ := hs
  refine ⟨?_, ?_, ?_, ?_⟩
  · intro h
    rw [operator_inc_below s hm h]
    rw [operator_dec_above { s with counter := s.counter + 1 }
      (by show s.counter + 1 < 256; omega) (by show 0 < s.counter + 1; omega)]
    cases s
    simp
  · rintro ⟨h0, hle⟩
    rw [operator_dec_above s hc256 h0]
    rw [operator_inc_below { s with counter := s.counter - 1 } hm
      (by show s.counter - 1 < s.maxVal; omega)]
    cases s with
    | mk i m c =>
      simp only [SatCounter.mk.injEq, true_and]
      show c - 1 + 1 = c
      have h0c : 0 < c := h0
      omega
  · rintro ⟨he, hpos⟩ hcontra
    rw [operator_inc_saturated s (by omega)] at hcontra
    have hcnt := operator_dec_counter s hc256
    rw [hcontra] at hcnt
    omega
  · rintro ⟨he, hpos⟩ hcontra
    rw [operator_dec_saturated s (by omega)] at hcontra
    have hcnt := operator_inc_counter s hm
    rw [hcontra] at hcnt
    simp only [he, hpos, if_true] at hcnt
    omega

theorem inc_dec_inverse_witness :
    SatCounter.WellTyped { initialVal := 0, maxVal := 3, counter := 2 } ∧
      SatCounter.operator_dec (SatCounter.operator_inc { initialVal := 0, maxVal := 3, counter := 2 }) =
        { initialVal := 0, maxVal := 3, counter := 2 } :=
  ⟨by decide,
    (inc_dec_inverse { initialVal := 0, maxVal := 3, counter := 2 } (by decide)).1 (by decide)⟩

/-! ## Frame -/

/-- C16: frame. On every counter state, increment and decrement in their pre and post
forms and reset leave `initialVal` and `maxVal` unchanged, a read leaves all three
fields unchanged, and so after any sequence of operations only `counter` can differ
from the state after construction. -/
theorem frame (s : SatCounter) :
    (s.operator_inc.initialVal = s.initialVal ∧ s.operator_inc.maxVal = s.maxVal) ∧
    (s.operator_inc_int.2.initialVal = s.initialVal ∧ s.operator_inc_int.2.maxVal = s.maxVal) ∧
    (s.operator_dec.initialVal = s.initialVal ∧ s.operator_dec.maxVal = s.maxVal) ∧
    (s.operator_dec_int.2.initialVal = s.initialVal ∧ s.operator_dec_int.2.maxVal = s.maxVal) ∧
    (s.reset.initialVal = s.initialVal ∧ s.reset.maxVal = s.maxVal) ∧
    s.operator_uint8_t_call.2 = s ∧
    ∀ ops : List Op, (run ops s).initialVal = s.initialVal ∧ (run ops s).maxVal = s.maxVal :=
  ⟨⟨apply_initialVal Op.preInc s, apply_maxVal Op.preInc s⟩,
    ⟨apply_initialVal Op.postInc s, apply_maxVal Op.postInc s⟩,
    ⟨apply_initialVal Op.preDec s, apply_maxVal Op.preDec s⟩,
    ⟨apply_initialVal Op.postDec s, apply_maxVal Op.postDec s⟩,
    ⟨rfl, rfl⟩, rfl,
    fun ops => ⟨run_initialVal ops s, run_maxVal ops s⟩⟩
